import Mathlib

/-!
# iotop: the sampling loop of `src/main.c`

A shallow embedding of `main.c` (option parsing, the task filter, the
shutdown handler and the sampling loop of `main`) together with the
properties of the loop that the design document states.

Everything `main.c` calls but does not define (`fetch_data`, the views, the
sleep functions, `arr_free`, `nl_init`, `nl_term`, ...) is an external
call: the model records it as an `Event` of the execution trace, and takes
what it returns from a `World` of oracles.  A snapshot returned by
`fetch_data` is named by the number of the call that returned it (1, 2, ...),
so two snapshots are the same exactly when they come from the same call.
-/

namespace Iotop

/-! ## Data model -/

/-- The four fields of `params_t` (the global `params`); the declaration is in
`iotop.h`, `main.c` stores results of `atoi` (C `int`) in each of them. -/
structure params_t where
  iter : Int
  delay : Int
  pid : Int
  user_id : Int
deriving DecidableEq, Repr

/-- The flags of `config_t` (the global `config`).  `config_t` is declared in
`iotop.h` as a union of the flag structure `f` and the array `opts`; the
flags are listed in the order of `str_opt`, which is how `parse_args`
addresses them through `config.opts`. -/
structure config_t where
  batch_mode : Int
  only : Int
  processes : Int
  accumulated : Int
  kilobytes : Int
  timestamp : Int
  quiet : Int
  nohelp : Int
  fullcmdline : Int
deriving DecidableEq, Repr

/-- The fields of `struct xxxid_stats` that `main.c` reads. -/
structure xxxid_stats where
  tid : Int
  euid : Int
deriving DecidableEq, Repr

/-- The fields of `struct act_stats` that `main.c` writes. -/
structure act_stats where
  read_bytes : Nat
  write_bytes : Nat
  ts_c : Nat
  read_bytes_o : Nat
  write_bytes_o : Nat
  ts_o : Nat
  have_o : Int
deriving DecidableEq, Repr

/-- A `struct xxxid_stats_arr *`: `none` is `NULL`, `some k` the snapshot
returned by the `k`-th call of `fetch_data`. -/
abbrev snapshot_ptr := Option Nat

/-- The two renderers a `view_callback` can point to. -/
inductive view_callback where
  | view_batch
  | view_curses
deriving DecidableEq, Repr

/-- The two wait functions a `how_to_sleep` can point to. -/
inductive how_to_sleep where
  | sleep
  | curses_sleep
deriving DecidableEq, Repr

/-- External calls made by `main` and `sig_handler`, in the order they happen. -/
inductive Event where
  | system_checks
  | setlocale
  | nl_init
  | signal
  | fetch_data (ret : Nat)
  | get_vm_counters
  | monotime
  | view (f : view_callback) (cs ps : snapshot_ptr) (act : act_stats)
  | arr_free (p : snapshot_ptr)
  | do_sleep (f : how_to_sleep) (seconds : Int)
  | nl_term
  | view_curses_finish
deriving DecidableEq, Repr

/-- What the external world returns to `main.c`. -/
structure World where
  /-- The `pw_uid` of a user name, when `getpwnam` finds it. -/
  getpwnam : List Char → Option Nat
  /-- The result of `system_checks()`. -/
  system_checks : Int
  /-- The counters read by the call of `get_vm_counters` in cycle `k + 1`. -/
  get_vm_counters : Nat → Nat × Nat
  /-- The clock read by the call of `monotime` in cycle `k + 1`. -/
  monotime : Nat → Nat
  /-- The result of the `k + 1`-th call of `do_sleep`. -/
  do_sleep : Nat → Int

/-- How an execution of `main` stands: the process called `exit`, `main`
returned, or the loop is still running when the step budget is used up. -/
inductive Outcome where
  | exited (status : Int)
  | returned (status : Int)
  | running
deriving DecidableEq, Repr

/-- The status `EXIT_SUCCESS` of `stdlib.h`. -/
def EXIT_SUCCESS : Int := 0

/-- The status `EXIT_FAILURE` of `stdlib.h`. -/
def EXIT_FAILURE : Int := 1

/-- The signal number `SIGINT` of `signal.h`. -/
def SIGINT : Int := 2

/-! ## C library functions used by `parse_args` -/

/-- Conversion of an integer to a 32-bit C `int` (two's complement wrap). -/
def to_int (z : Int) : Int := (z + 2 ^ 31) % 2 ^ 32 - 2 ^ 31

/-- The test `isdigit` of `ctype.h`: one of the characters 0 to 9. -/
def isdigit (c : Char) : Bool := 48 ≤ c.toNat && c.toNat ≤ 57

/-- The test `isspace` of `ctype.h` in the C locale: a space, or one of the
control characters from the tabulation to the carriage return. -/
def isspace (c : Char) : Bool := c.toNat = 32 || (9 ≤ c.toNat && c.toNat ≤ 13)

/-- The value of the longest run of decimal digits at the head of a string,
continuing from `acc`. -/
def strtol_digits : Nat → List Char → Nat
  | acc, [] => acc
  | acc, c :: cs => if isdigit c then strtol_digits (acc * 10 + (c.toNat - 48)) cs else acc

/-- The function `strtol(s, NULL, 10)` of the C library with a 64-bit `long`:
leading white space, an optional sign, then decimal digits up to the first
character that is not one; the result saturates at `LONG_MIN` and
`LONG_MAX`. -/
def strtol (s : List Char) : Int :=
  match s.dropWhile isspace with
  | '-' :: cs => max (-(strtol_digits 0 cs : Int)) (-(2 ^ 63))
  | '+' :: cs => min (strtol_digits 0 cs : Int) (2 ^ 63 - 1)
  | cs => min (strtol_digits 0 cs : Int) (2 ^ 63 - 1)

/-- The function `atoi` of the C library: `(int) strtol(s, NULL, 10)`. -/
def atoi (s : List Char) : Int := to_int (strtol s)

/-! ## `main.c` -/

/-- The values that `init_params` (lines 32-39) gives the global `params`. -/
def init_params : params_t :=
  { iter := -1, delay := 1, pid := -1, user_id := -1 }

/-- The global `config` after `memset(&config, 0, sizeof(config))` (line 80). -/
def config_zero : config_t :=
  { batch_mode := 0, only := 0, processes := 0, accumulated := 0, kilobytes := 0,
    timestamp := 0, quiet := 0, nohelp := 0, fullcmdline := 0 }

/-- The string `str_opt` (line 41). -/
def str_opt : List Char := ['b', 'o', 'P', 'a', 'k', 't', 'q', 'H', 'c']

/-- The assignment `config.opts[i] = 1`: it sets the `i`-th flag of the union. -/
def set_opt (c : config_t) (i : Nat) : config_t :=
  match i with
  | 0 => { c with batch_mode := 1 }
  | 1 => { c with only := 1 }
  | 2 => { c with processes := 1 }
  | 3 => { c with accumulated := 1 }
  | 4 => { c with kilobytes := 1 }
  | 5 => { c with timestamp := 1 }
  | 6 => { c with quiet := 1 }
  | 7 => { c with nohelp := 1 }
  | 8 => { c with fullcmdline := 1 }
  | _ => c

/-- One turn of the `switch` of `parse_args` (lines 110-156): `c` is what
`getopt_long` returned and `optarg` its argument.  The result is the new
`params` and `config`, or the status the process exits with.  What the cases
print is not recorded. -/
def parse_opt (getpwnam : List Char → Option Nat) (pc : params_t × config_t)
    (c : Char) (optarg : List Char) : Except Int (params_t × config_t) :=
  if c = 'v' then .error EXIT_SUCCESS
  else if c = 'h' then .error EXIT_SUCCESS
  else if c ∈ str_opt then .ok (pc.1, set_opt pc.2 (str_opt.indexOf c))
  else if c = 'n' then .ok ({ pc.1 with iter := atoi optarg }, pc.2)
  else if c = 'd' then .ok ({ pc.1 with delay := atoi optarg }, pc.2)
  else if c = 'p' then .ok ({ pc.1 with pid := atoi optarg }, pc.2)
  else if c = 'u' then
    if (optarg.head?.map isdigit).getD false then
      .ok ({ pc.1 with user_id := atoi optarg }, pc.2)
    else
      match getpwnam optarg with
      | none => .error EXIT_FAILURE
      | some uid => .ok ({ pc.1 with user_id := to_int uid }, pc.2)
  else .error EXIT_FAILURE

/-- The `while (1)` loop of `parse_args` (lines 82-157) over the successive
results of `getopt_long`; the end of the list is the result `-1`. -/
def parse_loop (getpwnam : List Char → Option Nat) :
    params_t × config_t → List (Char × List Char) → Except Int (params_t × config_t)
  | pc, [] => .ok pc
  | pc, (c, optarg) :: rest =>
    match parse_opt getpwnam pc c optarg with
    | .error status => .error status
    | .ok pc1 => parse_loop getpwnam pc1 rest

/-- Function `parse_args` (lines 76-158), on the successive results of
`getopt_long`. -/
def parse_args (getpwnam : List Char → Option Nat) (opts : List (Char × List Char)) :
    Except Int (params_t × config_t) :=
  parse_loop getpwnam (init_params, config_zero) opts

/-- Function `filter1` (lines 160-170), reading the global `params`. -/
def filter1 (params : params_t) (s : xxxid_stats) : Int :=
  if params.user_id ≠ -1 ∧ s.euid ≠ params.user_id then 1
  else if params.pid ≠ -1 ∧ s.tid ≠ params.pid then 1
  else 0

/-- Function `sig_handler` (lines 172-183): the external calls it makes, and the status
it exits with (`none` when it returns to its caller). -/
def sig_handler (config : config_t) (signo : Int) : List Event × Option Int :=
  if signo = SIGINT then
    (Event.nl_term :: (if config.batch_mode = 0 then [Event.view_curses_finish] else []),
      some EXIT_SUCCESS)
  else ([], none)

/-- Lines 204-205 of `main`: timestamp or quiet force batch mode. -/
def force_batch (config : config_t) : config_t :=
  if config.timestamp ≠ 0 ∨ config.quiet ≠ 0 then { config with batch_mode := 1 } else config

/-- Lines 207-214 of `main`: the view and the wait function. -/
def choose_view (config : config_t) : view_callback × how_to_sleep :=
  if config.batch_mode = 0 then (.view_curses, .curses_sleep) else (.view_batch, .sleep)

/-- The variables of `main` that live across cycles, `params.iter`, and the
number of calls of `fetch_data` and of `do_sleep` made so far. -/
structure loop_state where
  ps : snapshot_ptr
  cs : snapshot_ptr
  act : act_stats
  iter : Int
  fetched : Nat
  slept : Nat
deriving DecidableEq, Repr

/-- Lines 200-202 of `main`, with `params.iter` as parsed. -/
def loop_init (params : params_t) : loop_state :=
  { ps := none, cs := none,
    act := { read_bytes := 0, write_bytes := 0, ts_c := 0, read_bytes_o := 0,
             write_bytes_o := 0, ts_o := 0, have_o := 0 },
    iter := params.iter, fetched := 0, slept := 0 }

/-- The body of the `do` loop (lines 218-233): the external calls, the state
after it, and whether it left through `break`.  `--params.iter` is only
evaluated when `params.iter > -1`, so it never overflows. -/
def loop_body (w : World) (view : view_callback) (st : loop_state) :
    List Event × loop_state × Bool :=
  let cs : snapshot_ptr := some (st.fetched + 1)
  let vm := w.get_vm_counters st.fetched
  let act1 : act_stats :=
    { st.act with read_bytes := vm.1, write_bytes := vm.2, ts_c := w.monotime st.fetched }
  let calls := [Event.fetch_data (st.fetched + 1), Event.get_vm_counters, Event.monotime,
    Event.view view cs st.ps act1]
  let frees := match st.ps with
    | some p => [Event.arr_free (some p)]
    | none => []
  let act2 : act_stats :=
    { act1 with read_bytes_o := act1.read_bytes, write_bytes_o := act1.write_bytes,
                ts_o := act1.ts_c, have_o := 1 }
  let iter1 := if st.iter > -1 then st.iter - 1 else st.iter
  (calls ++ frees,
   { ps := cs, cs := cs, act := act2, iter := iter1, fetched := st.fetched + 1,
     slept := st.slept },
   decide (st.iter > -1) && decide (iter1 = 0))

/-- The `do ... while (!do_sleep(params.delay))` loop (lines 216-235), run for
at most `fuel` cycles: the external calls, and the state at the end of the
loop (`none` when the loop has not ended within `fuel` cycles). -/
def main_loop (w : World) (view : view_callback) (do_sleep : how_to_sleep) (delay : Int) :
    Nat → loop_state → List Event × Option loop_state
  | 0, _ => ([], none)
  | fuel + 1, st =>
    let r := loop_body w view st
    if r.2.2 then (r.1, some r.2.1)
    else
      let st1 := { r.2.1 with slept := r.2.1.slept + 1 }
      if w.do_sleep r.2.1.slept ≠ 0 then (r.1 ++ [Event.do_sleep do_sleep delay], some st1)
      else
        let rest := main_loop w view do_sleep delay fuel st1
        (r.1 ++ Event.do_sleep do_sleep delay :: rest.1, rest.2)

/-- The part of `main` after `parse_args` (lines 191-240). -/
def main_run (w : World) (params : params_t) (config : config_t) (fuel : Nat) :
    List Event × Outcome :=
  if w.system_checks ≠ 0 then ([Event.system_checks], .returned EXIT_FAILURE)
  else
    let start := [Event.system_checks, Event.setlocale, Event.nl_init, Event.signal]
    let config1 := force_batch config
    let vs := choose_view config1
    let r := main_loop w vs.1 vs.2 params.delay fuel (loop_init params)
    match r.2 with
    | none => (start ++ r.1, .running)
    | some st =>
      let h := sig_handler config1 SIGINT
      match h.2 with
      | some status => (start ++ r.1 ++ Event.arr_free st.cs :: h.1, .exited status)
      | none => (start ++ r.1 ++ Event.arr_free st.cs :: h.1, .returned 0)

/-- Function `main` (lines 185-241) on the results `opts` of `getopt_long`. -/
def main (w : World) (opts : List (Char × List Char)) (fuel : Nat) : List Event × Outcome :=
  match parse_args w.getpwnam opts with
  | .error status => ([], .exited status)
  | .ok pc => main_run w pc.1 pc.2 fuel

/-- A world in which nothing fails and every wait runs to its end. -/
def quiet_world : World :=
  { getpwnam := fun _ => none, system_checks := 0, get_vm_counters := fun _ => (0, 0),
    monotime := fun k => k, do_sleep := fun _ => 0 }

/-- A world in which the startup check of the accounting source fails. -/
def denied_world : World :=
  { quiet_world with system_checks := 13 }

/-! ## Observations of a trace -/

/-- The snapshots returned by the calls of `fetch_data`, in order. -/
def fetches (t : List Event) : List Nat :=
  t.filterMap fun e => match e with
    | .fetch_data k => some k
    | _ => none

/-- The snapshots passed to `arr_free`, in order. -/
def frees (t : List Event) : List Nat :=
  t.filterMap fun e => match e with
    | .arr_free (some k) => some k
    | _ => none

/-- The (current, previous) arguments of the calls of the view, in order. -/
def view_args (t : List Event) : List (snapshot_ptr × snapshot_ptr) :=
  t.filterMap fun e => match e with
    | .view _ cs ps _ => some (cs, ps)
    | _ => none

/-- The calls of `do_sleep`, by the `seconds` they were given, in order. -/
def waits (t : List Event) : List Int :=
  t.filterMap fun e => match e with
    | .do_sleep _ s => some s
    | _ => none

/-- The snapshot store after the calls `t`: the snapshots returned by
`fetch_data` and not yet passed to `arr_free`. -/
def live (t : List Event) : List Nat :=
  (fetches t).filter fun k => k ∉ frees t

/-- A termination request that arrives after the first `n` external calls of
an execution `t`, the handler being installed: `sig_handler(SIGINT)` runs at
that point, with the `config` of that moment. -/
def interrupted (config : config_t) (t : List Event) (n : Nat) : List Event × Outcome :=
  match (sig_handler config SIGINT).2 with
  | some status => (t.take n ++ (sig_handler config SIGINT).1, .exited status)
  | none => (t, .running)

/-! ## The filter chain, as the design document words it -/

/-- The user predicate of the filter chain: no user filter, or the task is
owned by the user. -/
def user_pred (params : params_t) (s : xxxid_stats) : Bool :=
  decide (params.user_id = -1 ∨ s.euid = params.user_id)

/-- The task predicate of the filter chain: no task filter, or the task is
the one asked for. -/
def task_pred (params : params_t) (s : xxxid_stats) : Bool :=
  decide (params.pid = -1 ∨ s.tid = params.pid)

/-- The previous-snapshot argument of the view in cycle `k`. -/
def prev_ptr (k : Nat) : snapshot_ptr := if k = 1 then none else some (k - 1)

/-- The arguments of the view in cycles `1 .. v`. -/
def cycle_views (v : Nat) : List (snapshot_ptr × snapshot_ptr) :=
  (List.range' 1 v).map fun k => (some k, prev_ptr k)

/-- A history with `n` snapshots fetched, the first `f` of them freed, and
`v` frames rendered. -/
def Summary (h : List Event) (n f v : Nat) : Prop :=
  fetches h = List.range' 1 n ∧ frees h = List.range' 1 f ∧ view_args h = cycle_views v

/-- The place of a call in the loop: what the history before it amounts to,
and what the call is given. -/
def in_cycle (view : view_callback) (do_sleep : how_to_sleep) (delay : Int)
    (h : List Event) (e : Event) : Prop :=
  ∃ n : Nat, match e with
    | .fetch_data k => Summary h n (n - 1) n ∧ k = n + 1
    | .get_vm_counters => 1 ≤ n ∧ Summary h n (n - 2) (n - 1)
    | .monotime => 1 ≤ n ∧ Summary h n (n - 2) (n - 1)
    | .view f cs ps _ => 1 ≤ n ∧ Summary h n (n - 2) (n - 1) ∧ f = view ∧ cs = some n ∧
        ps = prev_ptr n
    | .arr_free p => 2 ≤ n ∧ Summary h n (n - 2) n ∧ p = some (n - 1)
    | .do_sleep f s => 1 ≤ n ∧ Summary h n (n - 1) n ∧ f = do_sleep ∧ s = delay
    | _ => False

/-- The place of a call in an execution of `main` whose loop makes `m` cycles
if it ends: in a cycle of the loop, the `arr_free(cs)` after the loop, one of
the calls before the loop, or a call of the shutdown handler. -/
def in_main (view : view_callback) (do_sleep : how_to_sleep) (delay : Int) (m : Nat)
    (h : List Event) (e : Event) : Prop :=
  in_cycle view do_sleep delay h e ∨
  (1 ≤ m ∧ Summary h m (m - 1) m ∧ e = Event.arr_free (some m)) ∨
  (Summary h 0 0 0 ∧
    (e = Event.system_checks ∨ e = Event.setlocale ∨ e = Event.nl_init ∨ e = Event.signal)) ∨
  (1 ≤ m ∧ Summary h m m m ∧ (e = Event.nl_term ∨ e = Event.view_curses_finish))

/-- The property `P h e` holds of every call `e` of `t`, where `h` is the
history up to that call (`h0` followed by the calls of `t` before `e`). -/
def each_call (P : List Event → Event → Prop) : List Event → List Event → Prop
  | _, [] => True
  | h0, e :: t => P h0 e ∧ each_call P (h0 ++ [e]) t

/-! ## The filter chain -/

/-- C1: `filter1` keeps a task (returns 0) exactly when the user predicate and
the task predicate both hold, and returns 1 otherwise; filtering a list of
tasks with it gives the tasks kept by both predicates, whichever of the two
is applied first. -/
theorem filter1_is_intersection (params : params_t) (s : xxxid_stats) (l : List xxxid_stats) :
    (filter1 params s = 0 ↔
      (params.user_id = -1 ∨ s.euid = params.user_id) ∧ (params.pid = -1 ∨ s.tid = params.pid)) ∧
    (filter1 params s = 1 ↔
      ¬ ((params.user_id = -1 ∨ s.euid = params.user_id) ∧
         (params.pid = -1 ∨ s.tid = params.pid))) ∧
    (filter1 params s = 0 ↔ (user_pred params s && task_pred params s) = true) ∧
    (filter1 params s = 0 ↔ (task_pred params s && user_pred params s) = true) ∧
    l.filter (fun x => decide (filter1 params x = 0)) =
      (l.filter (user_pred params)).filter (task_pred params) ∧
    l.filter (fun x => decide (filter1 params x = 0)) =
      (l.filter (task_pred params)).filter (user_pred params) := by
  have key : ∀ x, decide (filter1 params x = 0) = (user_pred params x && task_pred params x) := by
    intro x
    unfold filter1 user_pred task_pred
    by_cases hu : params.user_id = -1 <;> by_cases he : x.euid = params.user_id <;>
      by_cases hp : params.pid = -1 <;> by_cases ht : x.tid = params.pid <;> simp [hu, he, hp, ht]
  have key0 : filter1 params s = 0 ↔ (user_pred params s && task_pred params s) = true := by
    rw [← key s]; simp
  have hval : filter1 params s = 0 ∨ filter1 params s = 1 := by
    unfold filter1; split_ifs <;> simp
  refine ⟨?_, ?_, key0, ?_, ?_, ?_⟩
  · rw [key0]; simp [user_pred, task_pred]
  · rw [← not_iff_not, not_not]
    have : filter1 params s = 0 ↔
        (params.user_id = -1 ∨ s.euid = params.user_id) ∧
          (params.pid = -1 ∨ s.tid = params.pid) := by
      rw [key0]; simp [user_pred, task_pred]
    rw [← this]
    rcases hval with h | h <;> simp [h]
  · rw [key0, Bool.and_comm]
  · rw [List.filter_filter]
    congr 1
    funext x
    rw [key x, Bool.and_comm]
  · rw [List.filter_filter]
    congr 1
    funext x
    rw [key x]

/-! ## Option parsing -/

theorem each_call_append (P : List Event → Event → Prop) (a b : List Event) :
    ∀ h0, each_call P h0 (a ++ b) ↔ each_call P h0 a ∧ each_call P (h0 ++ a) b := by
  induction a with
  | nil => intro h0; simp [each_call]
  | cons e a ih =>
    intro h0
    show each_call P h0 (e :: (a ++ b)) ↔ each_call P h0 (e :: a) ∧ each_call P (h0 ++ e :: a) b
    have hl : h0 ++ e :: a = (h0 ++ [e]) ++ a := by simp
    rw [each_call, each_call, ih, hl]
    tauto

theorem each_call_split (P : List Event → Event → Prop) (t : List Event) :
    ∀ h0, each_call P h0 t → ∀ pre e post, t = pre ++ e :: post → P (h0 ++ pre) e := by
  intro h0 ht pre e post heq
  subst heq
  rw [each_call_append] at ht
  exact ht.2.1

theorem each_call_mono (P Q : List Event → Event → Prop) (hPQ : ∀ h e, P h e → Q h e)
    (t : List Event) : ∀ h0, each_call P h0 t → each_call Q h0 t := by
  induction t with
  | nil => intro h0 _; trivial
  | cons e t ih => intro h0 h; exact ⟨hPQ _ _ h.1, ih _ h.2⟩

theorem cycle_views_succ (v : Nat) :
    cycle_views (v + 1) = cycle_views v ++ [(some (v + 1), prev_ptr (v + 1))] := by
  simp [cycle_views, List.range'_concat, Nat.add_comm]

theorem summary_append_sleep (h : List Event) (f : how_to_sleep) (s : Int) (n k v : Nat) :
    Summary (h ++ [Event.do_sleep f s]) n k v ↔ Summary h n k v := by
  simp [Summary, fetches, frees, view_args]

/-- One cycle, started with the history that `n` cycles leave: every call has
its place, and the history after it is the one that `n + 1` cycles leave. -/
theorem loop_body_shape (w : World) (view : view_callback) (do_sleep : how_to_sleep)
    (delay : Int) (st : loop_state) (h : List Event)
    (hS : Summary h st.fetched (st.fetched - 1) st.fetched)
    (hps : st.ps = (if st.fetched = 0 then none else some st.fetched)) :
    each_call (in_cycle view do_sleep delay) h (loop_body w view st).1 ∧
    Summary (h ++ (loop_body w view st).1) (st.fetched + 1) st.fetched (st.fetched + 1) ∧
    (loop_body w view st).2.1.fetched = st.fetched + 1 ∧
    (loop_body w view st).2.1.cs = some (st.fetched + 1) ∧
    (loop_body w view st).2.1.ps = some (st.fetched + 1) ∧
    (loop_body w view st).2.1.slept = st.slept := by
  obtain ⟨hf, hr, hv⟩ := hS
  refine ⟨?_, ?_, rfl, rfl, rfl, rfl⟩ <;>
    rcases Nat.eq_zero_or_pos st.fetched with h0 | hpos
  · rw [if_pos h0] at hps
    rw [h0] at hf hr hv
    simp only [loop_body, hps, h0]
    · simp only [List.append_nil, each_call, and_true]
      refine ⟨⟨0, ⟨hf, hr, hv⟩, rfl⟩, ⟨1, le_refl _, ?_⟩, ⟨1, le_refl _, ?_⟩,
        ⟨1, le_refl _, ?_, rfl, rfl, rfl⟩⟩ <;>
      · simp only [Summary, fetches, frees, view_args, List.filterMap_append] at hf hr hv ⊢
        simp [hf, hr, hv, cycle_views]
  · obtain ⟨m, hm⟩ : ∃ m, st.fetched = m + 1 := ⟨st.fetched - 1, by omega⟩
    rw [if_neg (by omega)] at hps
    rw [hm] at hf hr hv hps
    simp only [loop_body, hps, hm]
    simp only [List.cons_append, List.nil_append, each_call, and_true, List.append_assoc]
    have hc : cycle_views (m + 1 + 1) =
        cycle_views (m + 1) ++ [(some (m + 1 + 1), some (m + 1))] := by
      rw [cycle_views_succ]; simp [prev_ptr]
    refine ⟨⟨m + 1, ⟨hf, hr, hv⟩, rfl⟩, ⟨m + 2, by omega, ?_⟩, ⟨m + 2, by omega, ?_⟩,
        ⟨m + 2, by omega, ?_, rfl, rfl, by simp [prev_ptr]⟩, ⟨m + 2, by omega, ?_, rfl⟩⟩ <;>
      · simp only [Summary, fetches, frees, view_args, List.filterMap_append] at hf hr hv ⊢
        simp [hf, hr, hv, hc, List.range'_1_concat, Nat.add_comm]
  · rw [if_pos h0] at hps
    rw [h0] at hf hr hv
    simp only [loop_body, hps, h0]
    simp only [Summary, fetches, frees, view_args, List.filterMap_append] at hf hr hv ⊢
    simp [hf, hr, hv, cycle_views, prev_ptr]
  · obtain ⟨m, hm⟩ : ∃ m, st.fetched = m + 1 := ⟨st.fetched - 1, by omega⟩
    rw [if_neg (by omega)] at hps
    rw [hm] at hf hr hv hps
    simp only [loop_body, hps, hm]
    have hc : cycle_views (m + 1 + 1) =
        cycle_views (m + 1) ++ [(some (m + 1 + 1), some (m + 1))] := by
      rw [cycle_views_succ]; simp [prev_ptr]
    simp only [Summary, fetches, frees, view_args, List.filterMap_append] at hf hr hv ⊢
    simp [hf, hr, hv, hc, List.range'_1_concat]
    omega

/-- The loop, started at the head of cycle `n + 1` with the history that `n`
cycles leave: every call has its place, and if the loop ends, it has made at
least one cycle and `cs` is the last snapshot, the only one not yet freed. -/
theorem main_loop_shape (w : World) (view : view_callback) (do_sleep : how_to_sleep)
    (delay : Int) :
    ∀ (fuel : Nat) (st : loop_state) (h : List Event),
      Summary h st.fetched (st.fetched - 1) st.fetched →
      st.ps = (if st.fetched = 0 then none else some st.fetched) →
      each_call (in_cycle view do_sleep delay) h (main_loop w view do_sleep delay fuel st).1 ∧
      ∀ st1, (main_loop w view do_sleep delay fuel st).2 = some st1 →
        1 ≤ st1.fetched ∧ st1.cs = some st1.fetched ∧
        Summary (h ++ (main_loop w view do_sleep delay fuel st).1) st1.fetched
          (st1.fetched - 1) st1.fetched := by
  intro fuel
  induction fuel with
  | zero => intro st h _ _; simp [main_loop, each_call]
  | succ fuel ih =>
    intro st h hS hps
    obtain ⟨hcalls, hsum, hfe, hcs, hps1, hsl⟩ := loop_body_shape w view do_sleep delay st h hS hps
    rw [main_loop]
    simp only []
    split_ifs with hbrk hwake
    · refine ⟨hcalls, ?_⟩
      intro st1 hst1
      simp only [Option.some.injEq] at hst1
      subst hst1
      rw [hfe]
      exact ⟨by omega, hcs, hsum⟩
    · have hsleep : in_cycle view do_sleep delay (h ++ (loop_body w view st).1)
          (Event.do_sleep do_sleep delay) :=
        ⟨st.fetched + 1, by omega, hsum, rfl, rfl⟩
      refine ⟨?_, ?_⟩
      · rw [each_call_append]
        exact ⟨hcalls, hsleep, trivial⟩
      · intro st1 hst1
        simp only [Option.some.injEq] at hst1
        subst hst1
        simp only [hfe, hcs]
        rw [← List.append_assoc, summary_append_sleep]
        exact ⟨by omega, trivial, hsum⟩
    · have hsleep : in_cycle view do_sleep delay (h ++ (loop_body w view st).1)
          (Event.do_sleep do_sleep delay) :=
        ⟨st.fetched + 1, by omega, hsum, rfl, rfl⟩
      have hS1 : Summary (h ++ (loop_body w view st).1 ++ [Event.do_sleep do_sleep delay])
          (st.fetched + 1) (st.fetched + 1 - 1) (st.fetched + 1) := by
        rw [summary_append_sleep]; exact hsum
      obtain ⟨hrest, hend⟩ := ih
        { (loop_body w view st).2.1 with slept := (loop_body w view st).2.1.slept + 1 }
        (h ++ (loop_body w view st).1 ++ [Event.do_sleep do_sleep delay])
        (by simpa only [hfe] using hS1) (by simp [hfe, hps1])
      refine ⟨?_, ?_⟩
      · rw [each_call_append]
        exact ⟨hcalls, hsleep, hrest⟩
      · intro st1 hst1
        have := hend st1 hst1
        simpa only [List.append_assoc, List.singleton_append] using this

theorem each_call_mem (P : List Event → Event → Prop) (t : List Event) :
    ∀ h0, each_call P h0 t → ∀ e ∈ t, ∃ h, P h e := by
  induction t with
  | nil => intro h0 _ e he; simp at he
  | cons x t ih =>
    intro h0 h e he
    rcases List.mem_cons.1 he with rfl | he
    · exact ⟨h0, h.1⟩
    · exact ih _ h.2 e he

/-- The shape of an execution of the part of `main` after `parse_args`, when
the startup check succeeds. -/
theorem main_run_shape (w : World) (params : params_t) (config : config_t) (fuel : Nat)
    (hsc : w.system_checks = 0) :
    ∃ L : List Event,
      each_call (in_cycle (choose_view (force_batch config)).1
        (choose_view (force_batch config)).2 params.delay)
        [Event.system_checks, Event.setlocale, Event.nl_init, Event.signal] L ∧
      (((main_run w params config fuel).1 =
          [Event.system_checks, Event.setlocale, Event.nl_init, Event.signal] ++ L ∧
        (main_run w params config fuel).2 = Outcome.running) ∨
       ∃ m : Nat, 1 ≤ m ∧
        Summary ([Event.system_checks, Event.setlocale, Event.nl_init, Event.signal] ++ L)
          m (m - 1) m ∧
        (main_run w params config fuel).1 =
          [Event.system_checks, Event.setlocale, Event.nl_init, Event.signal] ++ L ++
            Event.arr_free (some m) :: (sig_handler (force_batch config) SIGINT).1 ∧
        (main_run w params config fuel).2 = Outcome.exited EXIT_SUCCESS) := by
  obtain ⟨hcalls, hend⟩ := main_loop_shape w (choose_view (force_batch config)).1
    (choose_view (force_batch config)).2 params.delay fuel (loop_init params)
    [Event.system_checks, Event.setlocale, Event.nl_init, Event.signal]
    (by simp [Summary, fetches, frees, view_args, loop_init, cycle_views])
    (by simp [loop_init])
  refine ⟨_, hcalls, ?_⟩
  unfold main_run
  rw [if_neg (by simp [hsc])]
  simp only []
  cases hr : (main_loop w (choose_view (force_batch config)).1
    (choose_view (force_batch config)).2 params.delay fuel (loop_init params)).2 with
  | none => left; exact ⟨rfl, rfl⟩
  | some st =>
    right
    obtain ⟨h1, hcs, hS⟩ := hend st hr
    refine ⟨st.fetched, h1, hS, ?_, ?_⟩
    · simp [sig_handler, hcs]
    · simp [sig_handler]

theorem start_calls (view : view_callback) (do_sleep : how_to_sleep) (delay : Int) (m : Nat) :
    each_call (in_main view do_sleep delay m) []
      [Event.system_checks, Event.setlocale, Event.nl_init, Event.signal] := by
  simp [each_call, in_main, Summary, fetches, frees, view_args, cycle_views]

theorem handler_calls (view : view_callback) (do_sleep : how_to_sleep) (delay : Int) (m : Nat)
    (config : config_t) (h : List Event) (hm : 1 ≤ m) (hS : Summary h m m m) :
    each_call (in_main view do_sleep delay m) h (sig_handler config SIGINT).1 ∧
    Summary (h ++ (sig_handler config SIGINT).1) m m m := by
  have h1 : Summary (h ++ [Event.nl_term]) m m m := by
    simpa [Summary, fetches, frees, view_args] using hS
  have h2 : Summary (h ++ [Event.nl_term, Event.view_curses_finish]) m m m := by
    simpa [Summary, fetches, frees, view_args] using hS
  by_cases hb : config.batch_mode = 0
  · simp only [sig_handler, if_true, hb, each_call, and_true]
    exact ⟨⟨Or.inr (Or.inr (Or.inr ⟨hm, hS, Or.inl rfl⟩)),
      Or.inr (Or.inr (Or.inr ⟨hm, h1, Or.inr rfl⟩))⟩, h2⟩
  · simp only [sig_handler, if_true, hb, if_false, each_call, and_true]
    exact ⟨Or.inr (Or.inr (Or.inr ⟨hm, hS, Or.inl rfl⟩)), h1⟩

theorem summary_append_free (h : List Event) (m : Nat) (hm : 1 ≤ m)
    (hS : Summary h m (m - 1) m) : Summary (h ++ [Event.arr_free (some m)]) m m m := by
  obtain ⟨k, rfl⟩ : ∃ k, m = k + 1 := ⟨m - 1, by omega⟩
  obtain ⟨hf, hr, hv⟩ := hS
  simp only [Summary, fetches, frees, view_args, List.filterMap_append] at hf hr hv ⊢
  simp [hf, hr, hv, List.range'_1_concat]
  omega

/-- Every call of an execution of the part of `main` after `parse_args` has
its place; when the loop ends, it has made `m` cycles, one or more, the
process exits with status 0, and the execution is a body that fetches,
renders and frees `m` snapshots, followed by the calls of the shutdown
handler. -/
theorem main_run_calls (w : World) (params : params_t) (config : config_t) (fuel : Nat) :
    ∃ m : Nat,
      each_call (in_main (choose_view (force_batch config)).1
        (choose_view (force_batch config)).2 params.delay m) []
        (main_run w params config fuel).1 ∧
      ((m = 0 ∧ ((main_run w params config fuel).2 = Outcome.running ∨
          (main_run w params config fuel).2 = Outcome.returned EXIT_FAILURE)) ∨
       (1 ≤ m ∧ (main_run w params config fuel).2 = Outcome.exited EXIT_SUCCESS ∧
        ∃ body, Summary body m m m ∧
          (main_run w params config fuel).1 =
            body ++ (sig_handler (force_batch config) SIGINT).1)) := by
  by_cases hsc : w.system_checks = 0
  · obtain ⟨L, hL, hcase⟩ := main_run_shape w params config fuel hsc
    rcases hcase with ⟨ht, ho⟩ | ⟨m, hm, hS, ht, ho⟩
    · refine ⟨0, ?_, Or.inl ⟨rfl, Or.inl ho⟩⟩
      rw [ht, each_call_append]
      refine ⟨start_calls _ _ _ _, ?_⟩
      exact each_call_mono _ _ (fun h e he => Or.inl he) _ _ hL
    · have hS1 := summary_append_free _ m hm hS
      obtain ⟨hH, _⟩ := handler_calls (choose_view (force_batch config)).1
        (choose_view (force_batch config)).2 params.delay m (force_batch config) _ hm hS1
      refine ⟨m, ?_, Or.inr ⟨hm, ho, _, hS1, ?_⟩⟩
      · rw [ht, each_call_append, each_call_append]
        refine ⟨⟨start_calls _ _ _ _, ?_⟩, ?_⟩
        · exact each_call_mono _ _ (fun h e he => Or.inl he) _ _ hL
        · refine ⟨Or.inr (Or.inl ⟨hm, hS, rfl⟩), ?_⟩
          simpa using hH
      · rw [ht]
        simp
  · refine ⟨0, ?_, Or.inl ⟨rfl, Or.inr ?_⟩⟩
    · unfold main_run
      rw [if_pos hsc]
      simp [each_call, in_main, Summary, fetches, frees, view_args, cycle_views]
    · unfold main_run
      rw [if_pos hsc]

/-- Every call of an execution of `main` has its place, and an execution in
which the shutdown handler runs is one whose loop has ended, after `m` cycles,
one or more: the process exits with status 0, and the execution is a body
that fetches, renders and frees `m` snapshots, followed by the calls of the
shutdown handler. -/
theorem main_calls (w : World) (opts : List (Char × List Char)) (fuel : Nat) :
    ∃ (view : view_callback) (do_sleep : how_to_sleep) (delay : Int) (m : Nat),
      each_call (in_main view do_sleep delay m) [] (main w opts fuel).1 ∧
      (Event.nl_term ∈ (main w opts fuel).1 →
        1 ≤ m ∧ (main w opts fuel).2 = Outcome.exited EXIT_SUCCESS ∧
        ∃ body config, Summary body m m m ∧
          (main w opts fuel).1 = body ++ (sig_handler config SIGINT).1) := by
  unfold main
  cases hp : parse_args w.getpwnam opts with
  | error status =>
    exact ⟨.view_batch, .sleep, 0, 0, trivial, fun h => by simp at h⟩
  | ok pc =>
    obtain ⟨m, hcalls, hcase⟩ := main_run_calls w pc.1 pc.2 fuel
    refine ⟨_, _, _, m, hcalls, ?_⟩
    intro hmem
    rcases hcase with ⟨rfl, _⟩ | ⟨hm, ho, body, hS, ht⟩
    · obtain ⟨h, hin⟩ := each_call_mem _ _ _ hcalls _ hmem
      rcases hin with ⟨_, hin⟩ | ⟨hin, _⟩ | ⟨_, hin⟩ | ⟨hin, _⟩
      · exact hin.elim
      · omega
      · simp at hin
      · omega
    · exact ⟨hm, ho, body, _, hS, ht⟩

/-! ## The snapshot store -/

theorem each_call_take (P : List Event → Event → Prop) (Q : List Event → Prop)
    (hPQ : ∀ h e, P h e → Q (h ++ [e])) (t : List Event) :
    ∀ h0, Q h0 → each_call P h0 t → ∀ i, Q (h0 ++ t.take i) := by
  induction t with
  | nil => intro h0 hQ _ i; simpa using hQ
  | cons e t ih =>
    intro h0 hQ h i
    cases i with
    | zero => simpa using hQ
    | succ i =>
      have := ih (h0 ++ [e]) (hPQ _ _ h.1) h.2 i
      simpa using this

theorem live_bound (h : List Event) (n f v : Nat) (hS : Summary h n f v) (hfn : f ≤ n) :
    (live h).length ≤ n - f := by
  obtain ⟨hf, hr, _⟩ := hS
  have hsplit : List.range' 1 n = List.range' 1 f ++ List.range' (1 + f) (n - f) := by
    rw [List.range'_append_1]
    congr 1
    omega
  unfold live
  rw [hf, hr, hsplit, List.filter_append]
  have hnil : List.filter (fun k => decide (k ∉ List.range' 1 f)) (List.range' 1 f) = [] := by
    rw [List.filter_eq_nil_iff]
    intro a ha
    simp only [decide_not, Bool.not_eq_true', decide_eq_false_iff_not, not_not]
    exact ha
  rw [hnil, List.nil_append]
  exact (List.length_filter_le _ _).trans (by simp)

theorem live_append_le (h : List Event) (e : Event) :
    (live (h ++ [e])).length ≤ (live h).length + (fetches [e]).length := by
  have hf : fetches (h ++ [e]) = fetches h ++ fetches [e] := by
    simp [fetches, List.filterMap_append]
  have hr : frees (h ++ [e]) = frees h ++ frees [e] := by
    simp [frees, List.filterMap_append]
  unfold live
  rw [hf, hr, List.filter_append, List.length_append]
  refine Nat.add_le_add ?_ (List.length_filter_le _ _)
  rw [← List.countP_eq_length_filter, ← List.countP_eq_length_filter]
  apply List.countP_mono_left
  intro x _ hx
  simp only [List.mem_append, not_or, decide_eq_true_eq] at hx ⊢
  exact hx.1

theorem in_main_live (view : view_callback) (do_sleep : how_to_sleep) (delay : Int) (m : Nat)
    (h : List Event) (e : Event) (hin : in_main view do_sleep delay m h e) :
    (live (h ++ [e])).length ≤ 2 := by
  have hle := live_append_le h e
  rcases hin with ⟨n, hin⟩ | ⟨hm, hS, rfl⟩ | ⟨hS, _⟩ | ⟨hm, hS, _⟩
  · cases e with
    | fetch_data k =>
      have := live_bound h n (n - 1) n hin.1 (by omega)
      simp only [fetches, List.filterMap_cons, List.filterMap_nil, List.length_singleton] at hle
      omega
    | get_vm_counters =>
      have := live_bound h n (n - 2) (n - 1) hin.2 (by omega)
      simp only [fetches, List.filterMap_cons, List.filterMap_nil, List.length_nil] at hle
      omega
    | monotime =>
      have := live_bound h n (n - 2) (n - 1) hin.2 (by omega)
      simp only [fetches, List.filterMap_cons, List.filterMap_nil, List.length_nil] at hle
      omega
    | view f cs ps act =>
      have := live_bound h n (n - 2) (n - 1) hin.2.1 (by omega)
      simp only [fetches, List.filterMap_cons, List.filterMap_nil, List.length_nil] at hle
      omega
    | arr_free p =>
      have := live_bound h n (n - 2) n hin.2.1 (by omega)
      simp only [fetches, List.filterMap_cons, List.filterMap_nil, List.length_nil] at hle
      omega
    | do_sleep f s =>
      have := live_bound h n (n - 1) n hin.2.1 (by omega)
      simp only [fetches, List.filterMap_cons, List.filterMap_nil, List.length_nil] at hle
      omega
    | system_checks => exact hin.elim
    | setlocale => exact hin.elim
    | nl_init => exact hin.elim
    | signal => exact hin.elim
    | nl_term => exact hin.elim
    | view_curses_finish => exact hin.elim
  · have := live_bound h m (m - 1) m hS (by omega)
    simp only [fetches, List.filterMap_cons, List.filterMap_nil, List.length_nil] at hle
    omega
  · have := live_bound h 0 0 0 hS (by omega)
    have : (fetches [e]).length ≤ 1 := by
      unfold fetches
      exact (List.length_filterMap_le _ _).trans (by simp)
    omega
  · have := live_bound h m m m hS (by omega)
    have : (fetches [e]).length ≤ 1 := by
      unfold fetches
      exact (List.length_filterMap_le _ _).trans (by simp)
    omega

theorem live_append_handler (config : config_t) (t : List Event) (j : Nat) :
    live (t ++ ((sig_handler config SIGINT).1).take j) = live t := by
  have hH : fetches (((sig_handler config SIGINT).1).take j) = [] ∧
      frees (((sig_handler config SIGINT).1).take j) = [] := by
    by_cases hb : config.batch_mode = 0 <;> rcases j with _ | _ | j <;>
      simp [sig_handler, hb, fetches, frees]
  have hf : fetches (t ++ ((sig_handler config SIGINT).1).take j) = fetches t := by
    have := hH.1
    simp only [fetches, List.filterMap_append] at this ⊢
    rw [this, List.append_nil]
  have hr : frees (t ++ ((sig_handler config SIGINT).1).take j) = frees t := by
    have := hH.2
    simp only [frees, List.filterMap_append] at this ⊢
    rw [this, List.append_nil]
  unfold live
  rw [hf, hr]

/-- C3: at every point of every execution of `main` (after any number `i` of
its external calls, whatever the options, the world and the number of cycles),
the snapshots fetched and not yet freed are two at most; the same holds at
every point of an execution cut short by a termination request. -/
theorem snapshot_store_at_most_two (w : World) (opts : List (Char × List Char)) (fuel : Nat) :
    (∀ i, (live ((main w opts fuel).1.take i)).length ≤ 2) ∧
    (∀ config n i,
      (live ((interrupted config (main w opts fuel).1 n).1.take i)).length ≤ 2) := by
  obtain ⟨view, do_sleep, delay, m, hcalls, _⟩ := main_calls w opts fuel
  have hmain : ∀ i, (live ((main w opts fuel).1.take i)).length ≤ 2 := by
    intro i
    have := each_call_take (in_main view do_sleep delay m) (fun h => (live h).length ≤ 2)
      (in_main_live view do_sleep delay m) _ [] (by simp [live, fetches]) hcalls i
    simpa using this
  refine ⟨hmain, ?_⟩
  intro config n i
  have hI : (interrupted config (main w opts fuel).1 n).1 =
      (main w opts fuel).1.take n ++ (sig_handler config SIGINT).1 := by
    simp [interrupted, sig_handler]
  rw [hI, List.take_append_eq_append_take, List.take_take, live_append_handler]
  exact hmain _

/-! ## What the view is given -/

theorem cycle_views_length (v : Nat) : (cycle_views v).length = v := by
  simp [cycle_views]

/-- C8: the `k`-th call of the view (the one of cycle `k`) comes when exactly
the snapshots `1 .. k` have been fetched, is given the snapshot `k` as current
and the snapshot `k - 1` as previous, `NULL` exactly when `k = 1`, and neither
of them has been passed to `arr_free` before the call. -/
theorem view_gets_current_and_previous (w : World) (opts : List (Char × List Char))
    (fuel : Nat) (pre post : List Event) (f : view_callback) (cs ps : snapshot_ptr)
    (act : act_stats)
    (hsplit : (main w opts fuel).1 = pre ++ Event.view f cs ps act :: post) :
    fetches pre = List.range' 1 ((view_args pre).length + 1) ∧
    cs = some ((view_args pre).length + 1) ∧
    ps = (if (view_args pre).length + 1 = 1 then none else some (view_args pre).length) ∧
    (ps = none ↔ (view_args pre).length + 1 = 1) ∧
    ∀ s, cs = some s ∨ ps = some s → s ∉ frees pre := by
  obtain ⟨view, do_sleep, delay, m, hcalls, _⟩ := main_calls w opts fuel
  have hin := each_call_split _ _ [] hcalls pre _ post hsplit
  rw [List.nil_append] at hin
  rcases hin with ⟨n, hn, ⟨hf, hr, hv⟩, _, hcs, hps⟩ | ⟨_, _, he⟩ | ⟨_, he⟩ | ⟨_, _, he⟩
  · obtain ⟨k, rfl⟩ : ∃ k, n = k + 1 := ⟨n - 1, by omega⟩
    have hlen : (view_args pre).length = k := by
      rw [hv]; simp [cycle_views_length]
    rw [hlen, hf, hr, hcs, hps]
    refine ⟨rfl, rfl, ?_, ?_, ?_⟩
    · unfold prev_ptr; simp
    · unfold prev_ptr; split_ifs <;> simp_all
    · intro s hs
      simp only [List.mem_range'_1, not_and, not_lt]
      rcases hs with hs | hs
      · simp only [Option.some.injEq] at hs
        omega
      · unfold prev_ptr at hs
        split_ifs at hs
        simp only [Option.some.injEq] at hs
        omega
  · cases he
  · simp at he
  · simp at he

/-- C8, on the execution with two iterations: the second call of the view is
given the snapshots 2 and 1, and none has been freed by then. -/
theorem view_gets_current_and_previous_witness :
    (main quiet_world [('n', ['2'])] 5).1 =
      (main quiet_world [('n', ['2'])] 5).1.take 12 ++
        Event.view .view_curses (some 2) (some 1)
          { read_bytes := 0, write_bytes := 0, ts_c := 1, read_bytes_o := 0,
            write_bytes_o := 0, ts_o := 0, have_o := 1 } ::
        (main quiet_world [('n', ['2'])] 5).1.drop 13 ∧
    (some 2 : snapshot_ptr) =
      some ((view_args ((main quiet_world [('n', ['2'])] 5).1.take 12)).length + 1) :=
  ⟨by decide,
   (view_gets_current_and_previous quiet_world [('n', ['2'])] 5
      ((main quiet_world [('n', ['2'])] 5).1.take 12)
      ((main quiet_world [('n', ['2'])] 5).1.drop 13) .view_curses (some 2) (some 1)
      { read_bytes := 0, write_bytes := 0, ts_c := 1, read_bytes_o := 0,
        write_bytes_o := 0, ts_o := 0, have_o := 1 }
      (by decide)).2.1⟩

/-! ## Every snapshot is released once -/

/-- C9: in an execution of `main` in which the loop ends, so that the
shutdown handler runs, after `m` cycles: `m` is at least 1, the snapshots
fetched are `1 .. m`, the snapshots passed to `arr_free` are `1 .. m`, each
once, all of them before the first call of the shutdown handler; a snapshot
`s < m` is freed during cycle `s + 1`, after the view of that cycle, the
snapshot `m` after the last cycle, and every call of `arr_free` is given a
snapshot that none of the earlier calls was given. -/
theorem every_snapshot_freed_once (w : World) (opts : List (Char × List Char)) (fuel : Nat)
    (hend : Event.nl_term ∈ (main w opts fuel).1) :
    1 ≤ (fetches (main w opts fuel).1).length ∧
    fetches (main w opts fuel).1 = List.range' 1 (fetches (main w opts fuel).1).length ∧
    frees (main w opts fuel).1 = List.range' 1 (fetches (main w opts fuel).1).length ∧
    (∀ k, 1 ≤ k → k ≤ (fetches (main w opts fuel).1).length →
      (frees (main w opts fuel).1).count k = 1) ∧
    (∃ body config, (main w opts fuel).1 = body ++ (sig_handler config SIGINT).1 ∧
      frees body = List.range' 1 (fetches (main w opts fuel).1).length) ∧
    ∀ pre p post, (main w opts fuel).1 = pre ++ Event.arr_free p :: post →
      ∃ s, p = some s ∧ frees pre = List.range' 1 (s - 1) ∧
        1 ≤ s ∧ s ≤ (fetches (main w opts fuel).1).length ∧
        (s < (fetches (main w opts fuel).1).length →
          (fetches pre).length = s + 1 ∧ (view_args pre).length = s + 1) ∧
        (s = (fetches (main w opts fuel).1).length →
          (fetches pre).length = s ∧ (view_args pre).length = s) := by
  obtain ⟨view, do_sleep, delay, m, hcalls, hfin⟩ := main_calls w opts fuel
  obtain ⟨hm, _, body, config, ⟨hbf, hbr, hbv⟩, ht⟩ := hfin hend
  obtain ⟨hHf, hHr⟩ : fetches (sig_handler config SIGINT).1 = [] ∧
      frees (sig_handler config SIGINT).1 = [] := by
    by_cases hb : config.batch_mode = 0 <;> simp [sig_handler, hb, fetches, frees]
  have hf : fetches (main w opts fuel).1 = List.range' 1 m := by
    rw [ht]
    simp only [fetches, List.filterMap_append] at hbf hHf ⊢
    rw [hbf, hHf, List.append_nil]
  have hr : frees (main w opts fuel).1 = List.range' 1 m := by
    rw [ht]
    simp only [frees, List.filterMap_append] at hbr hHr ⊢
    rw [hbr, hHr, List.append_nil]
  have hlen : (fetches (main w opts fuel).1).length = m := by
    rw [hf]; simp
  rw [hlen]
  refine ⟨hm, hf, hr, ?_, ⟨body, config, ht, hbr⟩, ?_⟩
  · intro k hk1 hkm
    rw [hr]
    exact List.count_eq_one_of_mem (List.nodup_range' 1 m) (by simp [List.mem_range'_1]; omega)
  · intro pre p post hsplit
    have hin := each_call_split _ _ [] hcalls pre _ post hsplit
    rw [List.nil_append] at hin
    have hpre : (fetches pre).length ≤ m := by
      rw [← hlen, hsplit]
      simp [fetches, List.filterMap_append]
    rcases hin with ⟨n, hn, ⟨hf1, hr1, hv1⟩, hp⟩ | ⟨_, ⟨hf1, hr1, hv1⟩, he⟩ | ⟨_, he⟩ |
      ⟨_, _, he⟩
    · have hn1 : (fetches pre).length = n := by rw [hf1]; simp
      have hn2 : (view_args pre).length = n := by rw [hv1]; simp [cycle_views_length]
      refine ⟨n - 1, hp, ?_, by omega, by omega, fun _ => ⟨by omega, by omega⟩,
        fun h => by omega⟩
      rw [hr1]
      congr 1
    · have hn1 : (fetches pre).length = m := by rw [hf1]; simp
      have hn2 : (view_args pre).length = m := by rw [hv1]; simp [cycle_views_length]
      simp only [Event.arr_free.injEq] at he
      exact ⟨m, he, hr1, hm, le_refl _, fun h => by omega, fun _ => ⟨hn1, hn2⟩⟩
    · simp at he
    · simp at he

/-- C9, on the execution with two iterations: both snapshots are freed, once
each. -/
theorem every_snapshot_freed_once_witness :
    Event.nl_term ∈ (main quiet_world [('n', ['2'])] 5).1 ∧
    frees (main quiet_world [('n', ['2'])] 5).1 =
      List.range' 1 (fetches (main quiet_world [('n', ['2'])] 5).1).length :=
  ⟨by decide, (every_snapshot_freed_once quiet_world [('n', ['2'])] 5 (by decide)).2.2.1⟩

/-! ## The iteration count -/

theorem loop_body_counts (w : World) (view : view_callback) (st : loop_state) :
    (fetches (loop_body w view st).1).length = 1 ∧
    (view_args (loop_body w view st).1).length = 1 ∧
    (waits (loop_body w view st).1).length = 0 := by
  cases hps : st.ps <;> simp [loop_body, hps, fetches, view_args, waits]

theorem counts_append_sleep (a rest : List Event) (f : how_to_sleep) (s : Int) :
    (fetches (a ++ Event.do_sleep f s :: rest)).length =
      (fetches a).length + (fetches rest).length ∧
    (view_args (a ++ Event.do_sleep f s :: rest)).length =
      (view_args a).length + (view_args rest).length ∧
    (waits (a ++ Event.do_sleep f s :: rest)).length =
      (waits a).length + 1 + (waits rest).length := by
  simp [fetches, view_args, waits, List.filterMap_append]
  omega

/-- With a count of `n + 1` iterations and waits that all return 0, the loop
ends after exactly `n + 1` cycles and `n` waits, given fuel for them. -/
theorem main_loop_bounded (w : World) (view : view_callback) (do_sleep : how_to_sleep)
    (delay : Int) (hsleep : ∀ k, w.do_sleep k = 0) :
    ∀ (n fuel : Nat) (st : loop_state), st.iter = (n : Int) + 1 → n + 1 ≤ fuel →
      ∃ st1, (main_loop w view do_sleep delay fuel st).2 = some st1 ∧
        (fetches (main_loop w view do_sleep delay fuel st).1).length = n + 1 ∧
        (view_args (main_loop w view do_sleep delay fuel st).1).length = n + 1 ∧
        (waits (main_loop w view do_sleep delay fuel st).1).length = n := by
  intro n
  induction n with
  | zero =>
    intro fuel st hiter hfuel
    obtain ⟨fuel, rfl⟩ : ∃ k, fuel = k + 1 := ⟨fuel - 1, by omega⟩
    obtain ⟨c1, c2, c3⟩ := loop_body_counts w view st
    have hbrk : (loop_body w view st).2.2 = true := by
      simp [loop_body, hiter]
    rw [main_loop]
    simp only [hbrk, if_true]
    exact ⟨_, rfl, c1, c2, c3⟩
  | succ n ih =>
    intro fuel st hiter hfuel
    obtain ⟨fuel, rfl⟩ : ∃ k, fuel = k + 1 := ⟨fuel - 1, by omega⟩
    obtain ⟨c1, c2, c3⟩ := loop_body_counts w view st
    have hbrk : (loop_body w view st).2.2 = false := by
      simp only [loop_body, hiter]
      simp
      omega
    have hnext : (loop_body w view st).2.1.iter = (n : Int) + 1 := by
      simp only [loop_body, hiter]
      rw [if_pos (by omega)]
      push_cast
      omega
    obtain ⟨st1, h1, d1, d2, d3⟩ := ih fuel
      { (loop_body w view st).2.1 with slept := (loop_body w view st).2.1.slept + 1 }
      hnext (by omega)
    rw [main_loop]
    simp only [hbrk, hsleep, ne_eq, not_true_eq_false, if_false, Bool.false_eq_true]
    obtain ⟨e1, e2, e3⟩ := counts_append_sleep (loop_body w view st).1
      (main_loop w view do_sleep delay fuel
        { (loop_body w view st).2.1 with slept := (loop_body w view st).2.1.slept + 1 }).1
      do_sleep delay
    refine ⟨st1, h1, ?_, ?_, ?_⟩
    · rw [e1, c1, d1]; omega
    · rw [e2, c2, d2]; omega
    · rw [e3, c3, d3]; omega

theorem counts_main_run_end (L H : List Event) (p : snapshot_ptr)
    (hH : fetches H = [] ∧ view_args H = [] ∧ waits H = []) :
    (fetches ([Event.system_checks, Event.setlocale, Event.nl_init, Event.signal] ++ L ++
      Event.arr_free p :: H)).length = (fetches L).length ∧
    (view_args ([Event.system_checks, Event.setlocale, Event.nl_init, Event.signal] ++ L ++
      Event.arr_free p :: H)).length = (view_args L).length ∧
    (waits ([Event.system_checks, Event.setlocale, Event.nl_init, Event.signal] ++ L ++
      Event.arr_free p :: H)).length = (waits L).length := by
  obtain ⟨h1, h2, h3⟩ := hH
  simp only [fetches, view_args, waits] at h1 h2 h3
  simp [fetches, view_args, waits, List.filterMap_append, h1, h2, h3]

theorem handler_counts (config : config_t) :
    fetches (sig_handler config SIGINT).1 = [] ∧ view_args (sig_handler config SIGINT).1 = [] ∧
    waits (sig_handler config SIGINT).1 = [] := by
  by_cases hb : config.batch_mode = 0 <;> simp [sig_handler, hb, fetches, view_args, waits]

/-- C2: with an iteration count `n ≥ 1`, a startup check that succeeds, no
termination request and waits that all return 0, `main` fetches `n` snapshots,
renders `n` frames, waits `n - 1` times and exits with status 0 (given fuel for
`n` cycles); with `n = 1` that is one frame and no wait. -/
theorem bounded_run_renders_n_frames (w : World) (opts : List (Char × List Char))
    (params : params_t) (config : config_t) (n fuel : Nat)
    (hparse : parse_args w.getpwnam opts = .ok (params, config))
    (hiter : params.iter = (n : Int)) (hn : 1 ≤ n)
    (hsc : w.system_checks = 0) (hsleep : ∀ k, w.do_sleep k = 0) (hfuel : n ≤ fuel) :
    (main w opts fuel).2 = Outcome.exited 0 ∧
    (view_args (main w opts fuel).1).length = n ∧
    (fetches (main w opts fuel).1).length = n ∧
    (waits (main w opts fuel).1).length = n - 1 := by
  obtain ⟨k, rfl⟩ : ∃ k, n = k + 1 := ⟨n - 1, by omega⟩
  obtain ⟨st1, h1, d1, d2, d3⟩ := main_loop_bounded w (choose_view (force_batch config)).1
    (choose_view (force_batch config)).2 params.delay hsleep k fuel (loop_init params)
    (by simp [loop_init, hiter]) hfuel
  have hrun : main w opts fuel = main_run w params config fuel := by
    simp [main, hparse]
  have hshape : main_run w params config fuel =
      ([Event.system_checks, Event.setlocale, Event.nl_init, Event.signal] ++
        (main_loop w (choose_view (force_batch config)).1
          (choose_view (force_batch config)).2 params.delay fuel (loop_init params)).1 ++
        Event.arr_free st1.cs :: (sig_handler (force_batch config) SIGINT).1,
       Outcome.exited 0) := by
    unfold main_run
    rw [if_neg (by simp [hsc])]
    simp only [h1]
    simp [sig_handler, EXIT_SUCCESS]
  obtain ⟨e1, e2, e3⟩ := counts_main_run_end
    (main_loop w (choose_view (force_batch config)).1
      (choose_view (force_batch config)).2 params.delay fuel (loop_init params)).1
    (sig_handler (force_batch config) SIGINT).1 st1.cs (handler_counts _)
  rw [hrun, hshape]
  exact ⟨rfl, by rw [e2, d2], by rw [e1, d1], by rw [e3, d3]; omega⟩

/-- C2 with `n = 1`: one frame, no wait, exit status 0. -/
theorem bounded_run_renders_n_frames_witness :
    (main quiet_world [('n', ['1'])] 1).2 = Outcome.exited 0 ∧
    (view_args (main quiet_world [('n', ['1'])] 1).1).length = 1 ∧
    (fetches (main quiet_world [('n', ['1'])] 1).1).length = 1 ∧
    (waits (main quiet_world [('n', ['1'])] 1).1).length = 1 - 1 :=
  bounded_run_renders_n_frames quiet_world [('n', ['1'])] { init_params with iter := 1 }
    config_zero 1 1 rfl rfl (le_refl 1) rfl (fun _ => rfl) (le_refl 1)

/-! ## Startup failure -/

/-- C7: when `parse_args` returns and `system_checks` returns non-zero, `main`
returns `EXIT_FAILURE`, which is not 0, having made no external call but
`system_checks`: no `nl_init`, no `fetch_data`, no view. -/
theorem failed_startup_check_renders_nothing (w : World) (opts : List (Char × List Char))
    (params : params_t) (config : config_t) (fuel : Nat)
    (hparse : parse_args w.getpwnam opts = .ok (params, config))
    (hsc : w.system_checks ≠ 0) :
    main w opts fuel = ([Event.system_checks], Outcome.returned EXIT_FAILURE) ∧
    EXIT_FAILURE ≠ 0 ∧
    Event.nl_init ∉ (main w opts fuel).1 ∧
    fetches (main w opts fuel).1 = [] ∧
    view_args (main w opts fuel).1 = [] := by
  have h : main w opts fuel = ([Event.system_checks], Outcome.returned EXIT_FAILURE) := by
    simp [main, hparse, main_run, hsc]
  rw [h]
  exact ⟨rfl, by decide, by decide, by decide, by decide⟩

/-- C7 in a world where the startup check fails with 13. -/
theorem failed_startup_check_renders_nothing_witness :
    denied_world.system_checks ≠ 0 ∧
    main denied_world [('b', [])] 7 = ([Event.system_checks], Outcome.returned EXIT_FAILURE) :=
  ⟨by decide,
   (failed_startup_check_renders_nothing denied_world [('b', [])] init_params
      (set_opt config_zero 0) 7 rfl (by decide)).1⟩

/-! ## Shutdown -/

/-- C6: for every configuration, if the timestamp flag or the quiet flag is set
then `main` sets `batch_mode` to 1; the view and the wait chosen are
`view_batch` and `sleep` exactly when `batch_mode` is set after that, and
`view_curses` and `curses_sleep` otherwise; so timestamp or quiet select
`view_batch` and `sleep`; and the loop calls no other view or wait than the
pair chosen. -/
theorem timestamp_or_quiet_select_batch (w : World) (params : params_t) (config : config_t)
    (fuel : Nat) :
    (config.timestamp ≠ 0 ∨ config.quiet ≠ 0 → (force_batch config).batch_mode = 1) ∧
    (choose_view (force_batch config) = (.view_batch, .sleep) ↔
      (force_batch config).batch_mode ≠ 0) ∧
    (choose_view (force_batch config) = (.view_curses, .curses_sleep) ↔
      (force_batch config).batch_mode = 0) ∧
    (config.timestamp ≠ 0 ∨ config.quiet ≠ 0 →
      choose_view (force_batch config) = (.view_batch, .sleep)) ∧
    (∀ f cs ps act, Event.view f cs ps act ∈ (main_run w params config fuel).1 →
      f = (choose_view (force_batch config)).1) ∧
    (∀ f s, Event.do_sleep f s ∈ (main_run w params config fuel).1 →
      f = (choose_view (force_batch config)).2) := by
  have hforce : config.timestamp ≠ 0 ∨ config.quiet ≠ 0 → (force_batch config).batch_mode = 1 := by
    intro h
    simp [force_batch, h]
  have hb : choose_view (force_batch config) = (.view_batch, .sleep) ↔
      (force_batch config).batch_mode ≠ 0 := by
    unfold choose_view
    split_ifs with h <;> simp [h]
  have hc : choose_view (force_batch config) = (.view_curses, .curses_sleep) ↔
      (force_batch config).batch_mode = 0 := by
    unfold choose_view
    split_ifs with h <;> simp [h]
  obtain ⟨m, hcalls, _⟩ := main_run_calls w params config fuel
  refine ⟨hforce, hb, hc, ?_, ?_, ?_⟩
  · intro h
    rw [hb, hforce h]
    decide
  · intro f cs ps act hmem
    obtain ⟨h, hin⟩ := each_call_mem _ _ _ hcalls _ hmem
    rcases hin with ⟨n, _, _, hf, _⟩ | ⟨_, _, he⟩ | ⟨_, he⟩ | ⟨_, _, he⟩
    · exact hf
    · cases he
    · simp at he
    · simp at he
  · intro f s hmem
    obtain ⟨h, hin⟩ := each_call_mem _ _ _ hcalls _ hmem
    rcases hin with ⟨n, _, _, hf, _⟩ | ⟨_, _, he⟩ | ⟨_, he⟩ | ⟨_, _, he⟩
    · exact hf
    · cases he
    · simp at he
    · simp at he

/-- C6 for the configuration that `--time` alone gives: batch view, plain sleep. -/
theorem timestamp_or_quiet_select_batch_witness :
    ((set_opt config_zero 5).timestamp ≠ 0 ∨ (set_opt config_zero 5).quiet ≠ 0) ∧
    choose_view (force_batch (set_opt config_zero 5)) = (.view_batch, .sleep) :=
  ⟨by decide,
   (timestamp_or_quiet_select_batch quiet_world init_params (set_opt config_zero 5) 1).2.2.2.1
     (by decide)⟩

/-! ## An iteration count that does not bound the loop -/

theorem loop_body_no_break (w : World) (view : view_callback) (st : loop_state)
    (hiter : st.iter ≤ 0) :
    (loop_body w view st).2.2 = false ∧
    (loop_body w view st).2.1.iter = (if st.iter = 0 then -1 else st.iter) ∧
    (loop_body w view st).2.1.slept = st.slept := by
  refine ⟨?_, ?_, rfl⟩
  · simp only [loop_body]
    by_cases h0 : st.iter = 0
    · simp [h0]
    · have : ¬ st.iter > -1 := by omega
      simp [this]
  · simp only [loop_body]
    by_cases h0 : st.iter = 0
    · simp [h0]
    · have : ¬ st.iter > -1 := by omega
      simp [this, h0]

/-- With `params.iter ≤ 0` at the head of a cycle the loop never leaves
through `break`: if it ends, the last wait returned non-zero and every cycle
was followed by a wait; and as long as the waits return 0 it goes on. -/
theorem main_loop_unbounded (w : World) (view : view_callback) (do_sleep : how_to_sleep)
    (delay : Int) :
    ∀ (fuel : Nat) (st : loop_state), st.iter ≤ 0 →
      (∀ st1, (main_loop w view do_sleep delay fuel st).2 = some st1 →
        st1.iter = (if st.iter = 0 then -1 else st.iter) ∧ st.slept < st1.slept ∧
        w.do_sleep (st1.slept - 1) ≠ 0 ∧
        (∀ k, st.slept ≤ k → k < st1.slept - 1 → w.do_sleep k = 0) ∧
        (fetches (main_loop w view do_sleep delay fuel st).1).length =
          st1.slept - st.slept) ∧
      ((∀ k, k < fuel → w.do_sleep (st.slept + k) = 0) →
        (main_loop w view do_sleep delay fuel st).2 = none ∧
        (fetches (main_loop w view do_sleep delay fuel st).1).length = fuel) := by
  intro fuel
  induction fuel with
  | zero =>
    intro st _
    simp [main_loop, fetches]
  | succ fuel ih =>
    intro st hiter
    obtain ⟨hbrk, hnext, hsl⟩ := loop_body_no_break w view st hiter
    obtain ⟨c1, _, _⟩ := loop_body_counts w view st
    have hle : (if st.iter = 0 then (-1 : Int) else st.iter) ≤ 0 := by
      split_ifs <;> omega
    have hne : (if st.iter = 0 then (-1 : Int) else st.iter) ≠ 0 := by
      split_ifs with h
      · omega
      · exact h
    have hle2 : (loop_body w view st).2.1.iter ≤ 0 := by rw [hnext]; exact hle
    have hi2 : (if (loop_body w view st).2.1.iter = 0 then (-1 : Int)
        else (loop_body w view st).2.1.iter) = (if st.iter = 0 then -1 else st.iter) := by
      rw [hnext, if_neg hne]
    obtain ⟨ih1, ih2⟩ := ih { (loop_body w view st).2.1 with slept := st.slept + 1 } hle2
    rw [main_loop]
    simp only [hbrk, Bool.false_eq_true, if_false, hsl]
    by_cases hwake : w.do_sleep st.slept = 0
    · simp only [hwake, ne_eq, not_true_eq_false, if_false]
      obtain ⟨e1, _, _⟩ := counts_append_sleep (loop_body w view st).1
        (main_loop w view do_sleep delay fuel
          { (loop_body w view st).2.1 with slept := st.slept + 1 }).1 do_sleep delay
      refine ⟨?_, ?_⟩
      · intro st1 hst1
        obtain ⟨a1, a2, a3, a4, a5⟩ := ih1 st1 hst1
        have a2 : st.slept + 1 < st1.slept := a2
        have a4 : ∀ k, st.slept + 1 ≤ k → k < st1.slept - 1 → w.do_sleep k = 0 := a4
        have a5 : (fetches (main_loop w view do_sleep delay fuel
            { (loop_body w view st).2.1 with slept := st.slept + 1 }).1).length =
            st1.slept - (st.slept + 1) := a5
        refine ⟨a1.trans hi2, by omega, a3, ?_, ?_⟩
        · intro k hk1 hk2
          rcases Nat.eq_or_lt_of_le hk1 with rfl | hlt
          · exact hwake
          · exact a4 k hlt hk2
        · rw [e1, c1, a5]; omega
      · intro hall
        obtain ⟨b1, b2⟩ := ih2 (fun k hk => by
          have := hall (k + 1) (by omega)
          rwa [show st.slept + (k + 1) = st.slept + 1 + k by omega] at this)
        exact ⟨b1, by rw [e1, c1, b2]; omega⟩
    · simp only [hwake, ne_eq, not_false_eq_true, if_true]
      refine ⟨?_, ?_⟩
      · intro st1 hst1
        simp only [Option.some.injEq] at hst1
        subst hst1
        refine ⟨hnext, Nat.lt_succ_self _, by simpa using hwake, fun k hk1 hk2 => ?_, ?_⟩
        · have hk2 : k < st.slept + 1 - 1 := hk2
          omega
        · show (fetches ((loop_body w view st).1 ++ [Event.do_sleep do_sleep delay])).length =
            st.slept + 1 - st.slept
          simp [fetches, List.filterMap_append] at c1 ⊢
          omega
      · intro hall
        exact absurd (hall 0 (by omega)) hwake

/-- C10: with `params.iter` equal to 0 or below -1 at the entry of the loop,
the first cycle does not leave through `break` and leaves `params.iter` at -1
when it was 0, unchanged when it was below -1; if the loop ends, `params.iter`
still has that value, the last wait returned non-zero, the waits before it
returned 0, and every cycle was followed by a wait (none left through
`break`); and as long as the waits return 0 the loop goes on, cycle after
cycle, whatever the number of cycles. -/
theorem iter_zero_or_negative_is_unbounded (w : World) (view : view_callback)
    (do_sleep : how_to_sleep) (delay : Int) (fuel : Nat) (st : loop_state)
    (hiter : st.iter = 0 ∨ st.iter < -1) :
    (loop_body w view st).2.2 = false ∧
    (loop_body w view st).2.1.iter = (if st.iter = 0 then -1 else st.iter) ∧
    (∀ st1, (main_loop w view do_sleep delay fuel st).2 = some st1 →
      st1.iter = (if st.iter = 0 then -1 else st.iter) ∧ st.slept < st1.slept ∧
      w.do_sleep (st1.slept - 1) ≠ 0 ∧
      (∀ k, st.slept ≤ k → k < st1.slept - 1 → w.do_sleep k = 0) ∧
      (fetches (main_loop w view do_sleep delay fuel st).1).length = st1.slept - st.slept) ∧
    ((∀ k, k < fuel → w.do_sleep (st.slept + k) = 0) →
      (main_loop w view do_sleep delay fuel st).2 = none ∧
      (fetches (main_loop w view do_sleep delay fuel st).1).length = fuel) := by
  have hle : st.iter ≤ 0 := by omega
  obtain ⟨h1, h2, _⟩ := loop_body_no_break w view st hle
  obtain ⟨h3, h4⟩ := main_loop_unbounded w view do_sleep delay fuel st hle
  exact ⟨h1, h2, h3, h4⟩

/-- C10 with `--iter=0`: `parse_args` stores 0, and with waits that return 0
the loop is still running after 50 cycles. -/
theorem iter_zero_or_negative_is_unbounded_witness :
    (parse_args quiet_world.getpwnam [('n', ['0'])]).toOption.map (fun pc => pc.1.iter) =
      some 0 ∧
    (main_loop quiet_world .view_curses .curses_sleep 1 50
      (loop_init { init_params with iter := 0 })).2 = none ∧
    (fetches (main_loop quiet_world .view_curses .curses_sleep 1 50
      (loop_init { init_params with iter := 0 })).1).length = 50 :=
  ⟨by decide,
   (iter_zero_or_negative_is_unbounded quiet_world .view_curses .curses_sleep 1 50
      (loop_init { init_params with iter := 0 }) (Or.inl rfl)).2.2.2 (fun _ _ => rfl)⟩

end Iotop
